import Mathlib

/-!
Verification development for the stocktinker repository (single source file
`stocktinker/stock.py`).

The embedding is shallow: pandas / numpy float values are idealized as exact
rationals extended with the IEEE special values NaN, +inf and -inf (`FV`);
a pandas DataFrame restricted to what the claims need is a date index plus an
association list of named columns (`Table`); stateful Python methods become
pure functions of their inputs, and Python exceptions become an explicit
result constructor.  Each definition is translated from the corresponding
function of `stock.py`; the pandas and numpy library calls the source relies
on (`pct_change`, `get_loc(method=nearest)`, `np.average`, `np.median`) are
translated from the documented behavior of those libraries in the versions
the source targets.
-/

/-- Idealized IEEE floating point value: an exact rational, NaN, or a signed
infinity.  Signed zero is collapsed to `num 0`. -/
inductive FV where
  | nan : FV
  | inf : FV
  | ninf : FV
  | num : ℚ → FV
deriving DecidableEq

/-- IEEE subtraction on `FV` (NaN propagates, inf - inf = NaN). -/
def fvSub : FV → FV → FV
  | .nan, _ => .nan
  | _, .nan => .nan
  | .inf, .inf => .nan
  | .inf, _ => .inf
  | .ninf, .ninf => .nan
  | .ninf, _ => .ninf
  | .num _, .inf => .ninf
  | .num _, .ninf => .inf
  | .num a, .num b => .num (a - b)

/-- IEEE multiplication on `FV` (NaN propagates, inf * 0 = NaN). -/
def fvMul : FV → FV → FV
  | .nan, _ => .nan
  | _, .nan => .nan
  | .inf, .inf => .inf
  | .inf, .ninf => .ninf
  | .ninf, .inf => .ninf
  | .ninf, .ninf => .inf
  | .inf, .num b => if 0 < b then .inf else if b < 0 then .ninf else .nan
  | .num a, .inf => if 0 < a then .inf else if a < 0 then .ninf else .nan
  | .ninf, .num b => if 0 < b then .ninf else if b < 0 then .inf else .nan
  | .num a, .ninf => if 0 < a then .ninf else if a < 0 then .inf else .nan
  | .num a, .num b => .num (a * b)

/-- IEEE division on `FV`: NaN propagates, inf/inf = NaN, x/0 is a signed
infinity for x nonzero and NaN for 0/0 (zeros are unsigned in this model). -/
def fvDiv : FV → FV → FV
  | .nan, _ => .nan
  | _, .nan => .nan
  | .inf, .inf => .nan
  | .inf, .ninf => .nan
  | .ninf, .inf => .nan
  | .ninf, .ninf => .nan
  | .inf, .num b => if b < 0 then .ninf else .inf
  | .ninf, .num b => if b < 0 then .inf else .ninf
  | .num _, .inf => .num 0
  | .num _, .ninf => .num 0
  | .num a, .num b =>
      if b = 0 then (if a = 0 then .nan else if 0 < a then .inf else .ninf)
      else .num (a / b)

/-- A pandas DataFrame as the claims need it: a row index of dates (days as
integers) and named numeric columns.  Column names are assumed unique, as
pandas column labels are in this code base. -/
structure Table where
  dates : List ℤ
  cols : List (String × List FV)
deriving DecidableEq

/-- The empty DataFrame `pd.DataFrame()`. -/
def emptyTable : Table := ⟨[], []⟩

/-- First column with the given name, as pandas `df[name]` lookup. -/
def colFind : List (String × List FV) → String → Option (List FV)
  | [], _ => none
  | p :: ps, name => if p.1 == name then some p.2 else colFind ps name

/-- Column lookup; theorems only use it where the column exists (a missing
column raises `KeyError` in Python, here it defaults to the empty column). -/
def col (t : Table) (name : String) : List FV :=
  (colFind t.cols name).getD []

/-- Membership test `name in df`, as used by the source. -/
def hasCol (t : Table) (name : String) : Bool :=
  t.cols.any (fun p => p.1 == name)

/-- Column assignment `df[name] = v`: replace the column in place if the name
exists, otherwise append it as the last column (pandas semantics). -/
def setCols : List (String × List FV) → String → List FV → List (String × List FV)
  | [], name, v => [(name, v)]
  | p :: ps, name, v => if p.1 == name then (name, v) :: ps else p :: setCols ps name v

/-- Table-level column assignment. -/
def setCol (t : Table) (name : String) (v : List FV) : Table :=
  ⟨t.dates, setCols t.cols name v⟩

lemma colFind_setCols_self (l : List (String × List FV)) (n : String) (v : List FV) :
    colFind (setCols l n v) n = some v := by
  induction l with
  | nil => simp [setCols, colFind]
  | cons p ps ih =>
      by_cases h : p.1 == n
      · simp [setCols, colFind, h]
      · simp [setCols, colFind, h, ih]

lemma colFind_setCols_ne (l : List (String × List FV)) (n m : String) (v : List FV)
    (h : m ≠ n) : colFind (setCols l n v) m = colFind l m := by
  induction l with
  | nil =>
      have : (n == m) = false := by
        simp only [beq_eq_false_iff_ne]
        exact fun hnm => h hnm.symm
      simp [setCols, colFind, this]
  | cons p ps ih =>
      by_cases hp : p.1 == n
      · have hpn : p.1 = n := by simpa using hp
        have h1 : (n == m) = false := by
          simp only [beq_eq_false_iff_ne]
          exact fun hnm => h hnm.symm
        have h2 : (p.1 == m) = false := by
          simp only [beq_eq_false_iff_ne]
          intro hpm
          exact h (hpm ▸ hpn ▸ rfl)
        simp [setCols, colFind, hp, h1, h2, hpn]
      · simp [setCols, colFind, hp, ih]

lemma col_setCol_self (t : Table) (n : String) (v : List FV) :
    col (setCol t n v) n = v := by
  simp [col, setCol, colFind_setCols_self]

lemma col_setCol_ne (t : Table) (n m : String) (v : List FV) (h : m ≠ n) :
    col (setCol t n v) m = col t m := by
  simp [col, setCol, colFind_setCols_ne _ _ _ _ h]

/-- Forward fill of NaN cells from the latest earlier non-NaN cell, with the
given carry for leading positions; this is `fillna(method=pad)`, which pandas
`pct_change` applies to its input before differencing. -/
def ffillGo (carry : FV) : List FV → List FV
  | [] => []
  | x :: xs =>
      match x with
      | .nan => carry :: ffillGo carry xs
      | v => v :: ffillGo v xs

/-- Forward fill with no initial carry (leading NaN cells stay NaN). -/
def ffill (l : List FV) : List FV := ffillGo .nan l

/-- Elementwise `x / prev - 1` where `prev` walks one step behind `x`. -/
def pctPairs : FV → List FV → List FV
  | _, [] => []
  | prev, x :: xs => fvSub (fvDiv x prev) (.num 1) :: pctPairs x xs

/-- pandas `Series.pct_change()` with its default arguments: forward fill the
series, then compute `filled.div(filled.shift(1)) - 1`, so entry 0 divides by
NaN and entry i divides by the filled entry i-1.  Written as a direct
recursion over the pairs (entry, previous entry), which produces exactly the
elementwise result of the div/shift formulation. -/
def pct_change (l : List FV) : List FV := pctPairs .nan (ffill l)

/-- Source `Stock.add_dividends_ps_growth` (stock.py lines 435-438): when a
dividends column for the currency exists, assign its `pct_change` to
`dividends-ps-growth`; then unconditionally assign `shares * 0.0` to the same
column, overwriting the branch result. -/
def add_dividends_ps_growth (cur : String) (t : Table) : Table :=
  let t1 := if hasCol t ("dividends-" ++ cur)
            then setCol t "dividends-ps-growth" (pct_change (col t ("dividends-" ++ cur)))
            else t
  setCol t1 "dividends-ps-growth" ((col t1 "shares").map (fun x => fvMul x (FV.num 0)))

/-- Source `Stock.add_earnings_ps_growth` (stock.py lines 443-444). -/
def add_earnings_ps_growth (cur : String) (t : Table) : Table :=
  setCol t "earnings-ps-growth" (pct_change (col t ("earnings-per-share-" ++ cur)))

/-- Index of the date of the sorted price history nearest to `target`, as
pandas `DatetimeIndex.get_loc(target, method=nearest)` computes it for a
monotonically increasing index: absolute-distance minimum, with a tie between
the two neighbours resolved to the later date (pandas picks the backfill
candidate when the pad distance is not strictly smaller).  The source sorts
the price history ascending before this call.  Empty input raises in pandas;
theorems only use nonempty lists. -/
def nearestIdx (target : ℤ) : List ℤ → ℕ
  | [] => 0
  | [_] => 0
  | d :: e :: ds =>
      let k := nearestIdx target (e :: ds)
      if (d - target).natAbs < ((e :: ds).getD k 0 - target).natAbs then 0 else k + 1

/-- Source `Stock.add_pe` (stock.py lines 481-484): first `pe` is set to the
earnings column, then every row i is overwritten with
`Close(nearest price date to date i) / eps i`; with the row index and the
earnings column aligned the net effect is this elementwise map. -/
def add_pe (priceDates : List ℤ) (closes : List FV) (cur : String) (t : Table) : Table :=
  let eps := col t ("earnings-per-share-" ++ cur)
  setCol t "pe" ((t.dates.zip eps).map (fun p =>
    fvDiv (closes.getD (nearestIdx p.1 priceDates) FV.nan) p.2))

/-- Source `Stock._csv_cache_valid` (stock.py lines 514-520).  The age
comparison `time.time() - getmtime < cache_lifetime` is the condition of an
`if` whose body only assigns `False` to the (misspelled, never read) local
variable `upate`; the function then returns `True` for every existing file.
The dead branch is kept as an unused let binding. -/
def csv_cache_valid (file_exists : Bool) (now mtime cache_lifetime : ℤ) : Bool :=
  if !file_exists then false
  else
    let _upate := if now - mtime < cache_lifetime then false else true
    true

/-- Fetch decision of `Stock._load_report_csv_to_df` (stock.py line 552):
download exactly when the 86800 second cache check fails. -/
def load_report_csv_fetches (file_exists : Bool) (now mtime : ℤ) : Bool :=
  !csv_cache_valid file_exists now mtime 86800

/-- Fetch decision of `Stock._load_price_csv_to_df` (stock.py line 524):
download exactly when the 40000 second cache check fails. -/
def load_price_csv_fetches (file_exists : Bool) (now mtime : ℤ) : Bool :=
  !csv_cache_valid file_exists now mtime 40000

/-- Outcome of the pandas `read_csv` call and subsequent processing on the
cached file: a parsed table, `EmptyDataError`, or any other parse error. -/
inductive ParseOutcome where
  | ok : Table → ParseOutcome
  | emptyData : ParseOutcome
  | malformed : ParseOutcome
deriving DecidableEq

/-- Result of a Python call: a value, or an exception escaping to the caller. -/
inductive PyResult (α : Type) where
  | ok : α → PyResult α
  | exn : String → PyResult α
deriving DecidableEq

/-- Source `Stock._load_report_csv_to_df` (stock.py lines 549-592) as a
function of the cache state, the network outcome and the parse outcome.  The
download step is outside the try block, so a failed `urlretrieve` escapes; an
`EmptyDataError` or any other parse error is caught and turned into an empty
DataFrame plus an error log entry naming the report kind. -/
def load_report_csv_to_df (report_type : String) (cache_valid fetch_ok : Bool)
    (parse : ParseOutcome) (log : List String) : PyResult (Table × List String) :=
  if !cache_valid && !fetch_ok then .exn "URLError"
  else
    match parse with
    | .ok df => .ok (df, log)
    | .emptyData => .ok (emptyTable, log ++ ["No " ++ report_type ++ " report found"])
    | .malformed => .ok (emptyTable, log ++ ["Unable to process report: " ++ report_type])

/-- Source `Stock._load_price_csv_to_df` (stock.py lines 522-547) as a
function of the cache state, the network outcome and the parse outcome.  A
download failure is caught (`MorningStarPriceError`), logged, and yields an
empty DataFrame.  Both parse-error handlers, however, evaluate
`report_type`, a name that is not bound anywhere in this function (it is a
local of the sibling `_load_report_csv_to_df`), so each handler raises a
`NameError` that escapes to the caller. -/
def load_price_csv_to_df (cache_valid fetch_ok : Bool)
    (parse : ParseOutcome) (log : List String) : PyResult (Table × List String) :=
  if !cache_valid && !fetch_ok then .ok (emptyTable, log ++ ["Unable to load price data"])
  else
    match parse with
    | .ok df => .ok (df, log)
    | .emptyData => .exn "NameError: name report_type is not defined"
    | .malformed => .exn "NameError: name report_type is not defined"

/-- Python builtin `max` over a list of floats (`max(self.ratios[pe])`).
Python raises on an empty sequence; theorems only use nonempty lists. -/
def pyMax : List ℚ → ℚ
  | [] => 0
  | x :: xs => xs.foldl max x

/-- Source `Stock.target_pe` (stock.py lines 313-321): with no `pe` column the
sentinel -1.0 is returned, otherwise `min(2 * estimated_growth * 100, max(pe))`.
The estimated growth and the pe values enter as exact rationals. -/
def target_pe (pe_col : Option (List ℚ)) (estimated_growth : ℚ) : ℚ :=
  match pe_col with
  | none => -1
  | some pes => min (2 * estimated_growth * 100) (pyMax pes)

/-- Result of a numpy float computation that may also raise: a real value,
NaN, or a raised exception (`ZeroDivisionError` from `np.average`). -/
inductive GrowthResult where
  | raise : GrowthResult
  | nan : GrowthResult
  | val : ℝ → GrowthResult

/-- pandas `Series.dropna()`: the non-missing observations in order. -/
def dropna (s : List (Option ℝ)) : List ℝ := s.filterMap id

/-- The weight vector `np.log(np.arange(0, n) + shift)` of
`Stock._get_average_growth_rate` (stock.py line 274). -/
noncomputable def logWeights (shift : ℝ) (n : ℕ) : List ℝ :=
  (List.range n).map (fun i : ℕ => Real.log ((i : ℝ) + shift))

/-- The normalize-then-average step of `Stock._get_average_growth_rate`
(stock.py lines 276-277): `weights = w / np.sum(w)` followed by
`np.average(a, weights=weights)`.  Case analysis on the float semantics:
with `a` empty the normalized weights are empty, their sum inside
`np.average` is 0.0 and it raises ZeroDivisionError; with `a` nonempty and
`np.sum(w) = 0` the normalization produces NaN or opposite-signed infinite
entries, the internal weight sum is NaN and the average is NaN; otherwise the
normalized weights sum to 1 and the result is the weighted sum. -/
noncomputable def np_weighted_average (w : List ℝ) (a : List ℝ) : GrowthResult :=
  if a.length = 0 then .raise
  else if w.sum = 0 then .nan
  else .val (((w.zip a).map (fun p => p.1 / w.sum * p.2)).sum)

/-- Source `Stock._get_average_growth_rate` (stock.py lines 270-278) as a
function of the log shift and the growth-rate column. -/
noncomputable def get_average_growth_rate (shift : ℝ) (s : List (Option ℝ)) : GrowthResult :=
  let a := dropna s
  np_weighted_average (logWeights shift a.length) a

/-- `np.median` of a 4-element float array with no NaN entries: the mean of
the two middle order statistics, computed as (sum - min - max) / 2. -/
noncomputable def np_median4 (a b c d : ℝ) : ℝ :=
  ((a + b + c + d) - min (min a b) (min c d) - max (max a b) (max c d)) / 2

/-- Python 3 `round` to an integer: round half to even. -/
noncomputable def roundHalfEven (x : ℝ) : ℤ :=
  if Int.fract x = 1 / 2 then 2 * round (x / 2) else round x

/-- Python `round(x, 2)`. -/
noncomputable def pyRound2 (x : ℝ) : ℝ := (roundHalfEven (100 * x) : ℤ) / 100

/-- Source `Stock.estimated_growth` (stock.py lines 251-259): build the numpy
array of the four growth estimates and take `round(np.median(...), 2)`.  The
four property reads are evaluated in source order, so the first one that
raises propagates; `np.median` returns NaN when any entry is NaN; otherwise
the median of the four values is rounded to 2 decimal places. -/
noncomputable def estimated_growth (shift : ℝ) (eps rev bv ocf : List (Option ℝ)) : GrowthResult :=
  match get_average_growth_rate shift eps, get_average_growth_rate shift rev,
        get_average_growth_rate shift bv, get_average_growth_rate shift ocf with
  | .raise, _, _, _ => .raise
  | _, .raise, _, _ => .raise
  | _, _, .raise, _ => .raise
  | _, _, _, .raise => .raise
  | .nan, _, _, _ => .nan
  | _, .nan, _, _ => .nan
  | _, _, .nan, _ => .nan
  | _, _, _, .nan => .nan
  | .val a, .val b, .val c, .val d => .val (pyRound2 (np_median4 a b c d))

/-- The constructor state of `Stock.__init__` that the modelled operations can
see (stock.py lines 57-70): the symbol, the stored `force_update` flag and
the numeric configuration. -/
structure Stock where
  symbol : String
  force_update : Bool
  revenue_growth_log_shift : ℝ
  n_projection_years : ℕ
  target_yield : ℚ

/-- Every observable of the modelled operations, bundled as one tuple-valued
function of a `Stock` and of the external inputs (file system state, network
and parse outcomes, report columns): the cache-validity checks for both
lifetimes, both fetch decisions, both loaders, the growth estimator, the
four-metric growth aggregate, the target P/E and the two derivation steps
that consult instance state. -/
noncomputable def Stock.observables (s : Stock) (file_exists : Bool) (now mtime : ℤ)
    (cache_valid fetch_ok : Bool) (parse : ParseOutcome) (log : List String)
    (series eps rev bv ocf : List (Option ℝ)) (pe_col : Option (List ℚ)) (g : ℚ)
    (priceDates : List ℤ) (closes : List FV) (cur : String) (t : Table) :=
  (csv_cache_valid file_exists now mtime 86800,
   csv_cache_valid file_exists now mtime 40000,
   load_report_csv_fetches file_exists now mtime,
   load_price_csv_fetches file_exists now mtime,
   load_report_csv_to_df "ratios" cache_valid fetch_ok parse log,
   load_price_csv_to_df cache_valid fetch_ok parse log,
   get_average_growth_rate s.revenue_growth_log_shift series,
   estimated_growth s.revenue_growth_log_shift eps rev bv ocf,
   target_pe pe_col g,
   add_pe priceDates closes cur t,
   add_dividends_ps_growth cur t)

/-- Modelled from the spec wording of fractional change, for comparison with
the pct_change translated from the source: one entry per period, computed
from (previous value, current value). -/
def specFracEntry : Option ℚ → Option ℚ → FV
  | some p, some c => if p = 0 then FV.nan else FV.num ((c - p) / p)
  | _, _ => FV.nan

/-- Modelled from the spec wording: later periods of the fractional change. -/
def specFracChangeGo : Option ℚ → List (Option ℚ) → List FV
  | _, [] => []
  | prev, c :: cs => specFracEntry prev c :: specFracChangeGo c cs

/-- Modelled from the spec wording (claim C7): the fractional change is
`(current - previous) / previous`, undefined for the first period (no
predecessor) and whenever the denominator is missing, zero, or the numerator
is missing. -/
def specFracChange : List (Option ℚ) → List FV
  | [] => []
  | c :: cs => FV.nan :: specFracChangeGo c cs

/-- Concrete ratios table with a dividends column whose fractional change is
nonzero, for the dividends-growth claim. -/
def tableC3 : Table :=
  ⟨[0, 1], [("dividends-usd", [FV.num 1, FV.num 2]), ("shares", [FV.num 100, FV.num 100])]⟩

/-- Concrete ratios table without a dividends column. -/
def tableC3b : Table := ⟨[0, 1], [("shares", [FV.num 100, FV.num 100])]⟩

/-- Concrete ratios table with earnings per share [100, 110, 121]. -/
def tableC7 : Table :=
  ⟨[0, 1, 2], [("earnings-per-share-usd", [FV.num 100, FV.num 110, FV.num 121])]⟩

/-- Concrete one-period ratios table dated at day 0 (2020-01-01 of the
nearest-date example, with price dates expressed as day offsets). -/
def tableC9 : Table := ⟨[0], [("earnings-per-share-usd", [FV.num 2])]⟩

lemma ffillGo_map_num (carry : FV) (vs : List ℚ) :
    ffillGo carry (vs.map FV.num) = vs.map FV.num := by
  induction vs generalizing carry with
  | nil => rfl
  | cons v vs ih => simp [ffillGo, ih]

lemma pctPairs_num (p : ℚ) (hp : p ≠ 0) (vs : List ℚ) (h : ∀ v ∈ vs, v ≠ 0) :
    pctPairs (FV.num p) (vs.map FV.num) = specFracChangeGo (some p) (vs.map some) := by
  induction vs generalizing p with
  | nil => rfl
  | cons c cs ih =>
      have hc : c ≠ 0 := h c (by simp)
      have hdiv : fvDiv (FV.num c) (FV.num p) = FV.num (c / p) := by
        simp [fvDiv, hp]
      have hhead : fvSub (fvDiv (FV.num c) (FV.num p)) (FV.num 1) = FV.num ((c - p) / p) := by
        rw [hdiv]
        simp only [fvSub, FV.num.injEq]
        rw [sub_div, div_self hp]
      have htail := ih c hc (fun v hv => h v (by simp [hv]))
      simp [pctPairs, specFracChangeGo, specFracEntry, hp, hhead, htail]

lemma pct_change_map_num (vs : List ℚ) (h : ∀ v ∈ vs, v ≠ 0) :
    pct_change (vs.map FV.num) = specFracChange (vs.map some) := by
  cases vs with
  | nil => rfl
  | cons v vs =>
      have hv : v ≠ 0 := h v (by simp)
      have hfill : ffill ((v :: vs).map FV.num) = (v :: vs).map FV.num :=
        ffillGo_map_num FV.nan (v :: vs)
      have hrest := pctPairs_num v hv vs (fun w hw => h w (by simp [hw]))
      simp [pct_change, hfill, pctPairs, fvDiv, fvSub, specFracChange, hrest,
            ffillGo_map_num (FV.num v) vs]

lemma nearestIdx_lt (target : ℤ) : ∀ (l : List ℤ), l ≠ [] → nearestIdx target l < l.length
  | [], h => absurd rfl h
  | [_], _ => by simp [nearestIdx]
  | d :: e :: ds, _ => by
      have ih := nearestIdx_lt target (e :: ds) (by simp)
      by_cases hlt :
          (d - target).natAbs < ((e :: ds).getD (nearestIdx target (e :: ds)) 0 - target).natAbs
      · simp only [nearestIdx]
        rw [if_pos hlt]
        simp
      · simp only [nearestIdx]
        rw [if_neg hlt]
        simp only [List.length_cons] at ih ⊢
        omega

lemma nearestIdx_min (target : ℤ) :
    ∀ (l : List ℤ) (j : ℕ), j < l.length →
      (l.getD (nearestIdx target l) 0 - target).natAbs ≤ (l.getD j 0 - target).natAbs
  | [], j, hj => by simp at hj
  | [d], j, hj => by
      have hj0 : j = 0 := by
        simp only [List.length_singleton] at hj
        omega
      subst hj0
      simp [nearestIdx]
  | d :: e :: ds, j, hj => by
      by_cases hlt :
          (d - target).natAbs < ((e :: ds).getD (nearestIdx target (e :: ds)) 0 - target).natAbs
      · have h0 : nearestIdx target (d :: e :: ds) = 0 := by
          simp only [nearestIdx]
          rw [if_pos hlt]
        rw [h0]
        cases j with
        | zero => simp
        | succ j' =>
            have hj' : j' < (e :: ds).length := by
              simpa [Nat.succ_lt_succ_iff] using hj
            have ih := nearestIdx_min target (e :: ds) j' hj'
            calc ((d :: e :: ds).getD 0 0 - target).natAbs
                ≤ ((e :: ds).getD (nearestIdx target (e :: ds)) 0 - target).natAbs :=
                  le_of_lt hlt
              _ ≤ ((e :: ds).getD j' 0 - target).natAbs := ih
              _ = ((d :: e :: ds).getD (j' + 1) 0 - target).natAbs := rfl
      · have h0 : nearestIdx target (d :: e :: ds) = nearestIdx target (e :: ds) + 1 := by
          simp only [nearestIdx]
          rw [if_neg hlt]
        rw [h0]
        have hk : ((d :: e :: ds).getD (nearestIdx target (e :: ds) + 1) 0 - target).natAbs
            = ((e :: ds).getD (nearestIdx target (e :: ds)) 0 - target).natAbs := rfl
        cases j with
        | zero =>
            rw [hk]
            exact le_of_not_lt hlt
        | succ j' =>
            have hj' : j' < (e :: ds).length := by
              simpa [Nat.succ_lt_succ_iff] using hj
            rw [hk]
            exact nearestIdx_min target (e :: ds) j' hj'

lemma getD_map_zip (f : ℤ × FV → FV) :
    ∀ (l1 : List ℤ) (l2 : List FV) (i : ℕ), i < l1.length → i < l2.length →
      ((l1.zip l2).map f).getD i FV.nan = f (l1.getD i 0, l2.getD i FV.nan)
  | [], _, i, h1, _ => by simp at h1
  | _ :: _, [], i, _, h2 => by simp at h2
  | a :: l1, b :: l2, 0, _, _ => rfl
  | a :: l1, b :: l2, i + 1, h1, h2 => by
      have h1' : i < l1.length := by simpa [Nat.succ_lt_succ_iff] using h1
      have h2' : i < l2.length := by simpa [Nat.succ_lt_succ_iff] using h2
      simpa using getD_map_zip f l1 l2 i h1' h2'

lemma foldl_max_init_le (c : ℚ) (l : List ℚ) : c ≤ l.foldl max c := by
  induction l generalizing c with
  | nil => simp
  | cons b l ih => exact le_trans (le_max_left c b) (ih (max c b))

lemma mem_le_foldl_max (a : ℚ) (l : List ℚ) : ∀ x ∈ a :: l, x ≤ l.foldl max a := by
  induction l generalizing a with
  | nil =>
      intro x hx
      simp at hx
      simp [hx]
  | cons b l ih =>
      intro x hx
      rcases List.mem_cons.1 hx with h | h
      · subst h
        exact le_trans (le_max_left x b) (foldl_max_init_le (max x b) l)
      · have := ih (max a b) x
        rcases List.mem_cons.1 h with h' | h'
        · subst h'
          exact le_trans (le_max_right a x) (foldl_max_init_le (max a x) l)
        · exact le_trans (le_refl x) (this (by simp [h']))

lemma mem_le_pyMax (x : ℚ) (l : List ℚ) (hx : x ∈ l) : x ≤ pyMax l := by
  cases l with
  | nil => simp at hx
  | cons a l => exact mem_le_foldl_max a l x hx

lemma dropna_replicate (n : ℕ) (v : ℝ) :
    dropna (List.replicate n (some v)) = List.replicate n v := by
  induction n with
  | zero => rfl
  | succ n ih => simp [List.replicate_succ, dropna, List.filterMap_cons, ih]

lemma sum_zip_replicate (w : List ℝ) (v S : ℝ) :
    ((w.zip (List.replicate w.length v)).map (fun p => p.1 / S * p.2)).sum
      = w.sum / S * v := by
  induction w with
  | nil => simp
  | cons x xs ih =>
      simp only [List.length_cons, List.replicate_succ, List.zip_cons_cons, List.map_cons,
                 List.sum_cons, ih]
      ring

lemma growth_const (shift v : ℝ) (n : ℕ) (hn : n ≠ 0)
    (hw : (logWeights shift n).sum ≠ 0) :
    get_average_growth_rate shift (List.replicate n (some v)) = .val v := by
  have hd : dropna (List.replicate n (some v)) = List.replicate n v := dropna_replicate n v
  show np_weighted_average
      (logWeights shift (dropna (List.replicate n (some v))).length)
      (dropna (List.replicate n (some v))) = .val v
  rw [hd, List.length_replicate]
  have hwl : (logWeights shift n).length = n := by
    rw [logWeights, List.length_map, List.length_range]
  unfold np_weighted_average
  rw [if_neg (by simp [List.length_replicate, hn]), if_neg hw]
  have hrep : List.replicate n v = List.replicate (logWeights shift n).length v := by rw [hwl]
  rw [hrep, sum_zip_replicate, div_self hw, one_mul]

lemma gagr_single (v : ℝ) : get_average_growth_rate 2 [some v] = .val v := by
  have hl : logWeights 2 1 = [Real.log 2] := by
    have hr : List.range 1 = [0] := by decide
    rw [logWeights, hr, List.map_singleton]
    norm_num
  have h2 : (logWeights 2 1).sum ≠ 0 := by
    rw [hl]
    simpa using ne_of_gt (Real.log_pos one_lt_two)
  have h := growth_const 2 v 1 one_ne_zero h2
  simpa [List.replicate] using h

lemma logWeights_twotwo : logWeights 2 2 = [Real.log 2, Real.log 3] := by
  have hr : List.range 2 = [0, 1] := by decide
  rw [logWeights, hr, List.map_cons, List.map_singleton]
  norm_num

lemma logWeights_twotwo_sum_pos : 0 < (logWeights 2 2).sum := by
  rw [logWeights_twotwo]
  simp only [List.sum_cons, List.sum_nil, add_zero]
  have h2 : 0 < Real.log 2 := Real.log_pos (by norm_num)
  have h3 : 0 < Real.log 3 := Real.log_pos (by norm_num)
  linarith

lemma logWeights_sum_pos (shift : ℝ) (n : ℕ) (hn : 0 < n) (hs : 1 ≤ shift)
    (h : 2 ≤ n ∨ 1 < shift) : 0 < (logWeights shift n).sum := by
  have hnonneg : ∀ x ∈ logWeights shift n, 0 ≤ x := by
    intro x hx
    simp only [logWeights, List.mem_map, List.mem_range] at hx
    obtain ⟨i, _, rfl⟩ := hx
    apply Real.log_nonneg
    have hc : (0 : ℝ) ≤ (i : ℝ) := Nat.cast_nonneg i
    linarith
  rcases h with h2 | hs1
  · have hmem : Real.log (((1 : ℕ) : ℝ) + shift) ∈ logWeights shift n := by
      simp only [logWeights, List.mem_map, List.mem_range]
      exact ⟨1, by omega, rfl⟩
    have hpos : 0 < Real.log (((1 : ℕ) : ℝ) + shift) := by
      apply Real.log_pos
      push_cast
      linarith
    calc (0 : ℝ) < Real.log (((1 : ℕ) : ℝ) + shift) := hpos
      _ ≤ (logWeights shift n).sum := List.single_le_sum hnonneg _ hmem
  · have hmem : Real.log (((0 : ℕ) : ℝ) + shift) ∈ logWeights shift n := by
      simp only [logWeights, List.mem_map, List.mem_range]
      exact ⟨0, hn, rfl⟩
    have hpos : 0 < Real.log (((0 : ℕ) : ℝ) + shift) := by
      apply Real.log_pos
      push_cast
      linarith
    calc (0 : ℝ) < Real.log (((0 : ℕ) : ℝ) + shift) := hpos
      _ ≤ (logWeights shift n).sum := List.single_le_sum hnonneg _ hmem

/-! Claim theorems. -/

/-- C1: the claimed cache policy fails on the code.  For an existing file of
age 100000 seconds — at or above the 86800 second statement TTL —
`_csv_cache_valid` still reports the cache valid and `_load_report_csv_to_df`
performs no refetch, because the age comparison only feeds the dead local
`upate`; a missing file is fetched as claimed.  Hence a resolve call can
return a file whose age is at or above the TTL. -/
theorem csv_cache_valid_ignores_ttl :
    csv_cache_valid true 100000 0 86800 = true ∧
    load_report_csv_fetches true 100000 0 = false ∧
    ¬ ((100000 : ℤ) - 0 < 86800) ∧
    csv_cache_valid true 100 0 86800 = true ∧
    load_report_csv_fetches true 100 0 = false ∧
    csv_cache_valid false 0 0 86800 = false ∧
    load_report_csv_fetches false 0 0 = true := by
  decide

/-- C2: an empty or unparseable price export makes `_load_price_csv_to_df`
raise a NameError to its caller (both handlers evaluate the unbound name
`report_type`), contradicting the claim for the price kind; the statement
loader does return an empty table plus a log entry naming the kind, and a
failed price download is caught and logged as claimed. -/
theorem load_price_csv_error_handlers_raise :
    load_price_csv_to_df true true .emptyData [] =
      .exn "NameError: name report_type is not defined" ∧
    load_price_csv_to_df true true .malformed [] =
      .exn "NameError: name report_type is not defined" ∧
    load_report_csv_to_df "income" true true .emptyData [] =
      .ok (emptyTable, ["No income report found"]) ∧
    load_report_csv_to_df "ratios" true true .malformed [] =
      .ok (emptyTable, ["Unable to process report: ratios"]) ∧
    load_price_csv_to_df false false .malformed [] =
      .ok (emptyTable, ["Unable to load price data"]) := by
  decide

/-- C3 counterexample: on a table whose dividends column has a nonzero
fractional change, the resulting dividends-ps-growth column is not that
fractional change (it is the zero column), and on a table without a
dividends column the dividends-ps-growth column is produced anyway. -/
theorem add_dividends_ps_growth_not_pct_change :
    col (add_dividends_ps_growth "usd" tableC3) "dividends-ps-growth"
      ≠ pct_change (col tableC3 "dividends-usd") ∧
    col (add_dividends_ps_growth "usd" tableC3) "dividends-ps-growth"
      = [FV.num 0, FV.num 0] ∧
    pct_change (col tableC3 "dividends-usd") = [FV.nan, FV.num 1] ∧
    hasCol tableC3b "dividends-usd" = false ∧
    hasCol (add_dividends_ps_growth "usd" tableC3b) "dividends-ps-growth" = true := by
  have hd : hasCol tableC3 ("dividends-" ++ "usd") = true := by decide
  have hshares : col tableC3 "shares" = [FV.num 100, FV.num 100] := by decide
  have hdivcol : col tableC3 ("dividends-" ++ "usd") = [FV.num 1, FV.num 2] := by decide
  have h2 : col (add_dividends_ps_growth "usd" tableC3) "dividends-ps-growth"
      = [FV.num 0, FV.num 0] := by
    simp only [add_dividends_ps_growth]
    rw [if_pos hd, col_setCol_self, col_setCol_ne _ _ _ _ (by decide), hshares]
    norm_num [fvMul]
  have h3 : pct_change (col tableC3 "dividends-usd") = [FV.nan, FV.num 1] := by
    rw [show ("dividends-usd" : String) = "dividends-" ++ "usd" from rfl, hdivcol]
    norm_num [pct_change, ffill, ffillGo, pctPairs, fvDiv, fvSub]
  exact ⟨by rw [h2, h3]; decide, h2, h3, by decide, by decide⟩

/-- C3 (amended): after `add_dividends_ps_growth` on a table with a shares
column, the dividends-ps-growth column always equals shares multiplied by
0.0 elementwise (zero where shares is present, NaN where it is missing),
whether or not a dividends column exists: the final unconditional assignment
overwrites the conditional pct_change assignment. -/
theorem add_dividends_ps_growth_overwrites_with_zero (cur : String) (t : Table)
    (h : hasCol t "shares" = true) :
    col (add_dividends_ps_growth cur t) "dividends-ps-growth" =
      (col t "shares").map (fun x => fvMul x (FV.num 0)) := by
  simp only [add_dividends_ps_growth]
  by_cases hd : hasCol t ("dividends-" ++ cur) = true
  · rw [if_pos hd, col_setCol_self, col_setCol_ne _ _ _ _ (by decide)]
  · rw [if_neg hd, col_setCol_self]

/-- C3 witness: the amended statement evaluated on a concrete table. -/
theorem add_dividends_ps_growth_overwrites_with_zero_witness :
    hasCol tableC3b "shares" = true ∧
    col (add_dividends_ps_growth "usd" tableC3b) "dividends-ps-growth"
      = (col tableC3b "shares").map (fun x => fvMul x (FV.num 0)) :=
  ⟨by decide, add_dividends_ps_growth_overwrites_with_zero "usd" tableC3b (by decide)⟩

/-- C5 counterexample: with a pe column present whose maximum is -1 and a
positive estimated growth 0.1, target_pe equals -1 even though the pe column
exists, so -1 is not returned exactly when the pe column is absent. -/
theorem target_pe_neg_one_with_pe_column :
    target_pe (some [-1]) (1 / 10) = -1 ∧
    (some [(-1 : ℚ)] : Option (List ℚ)) ≠ none ∧
    (0 : ℚ) < 1 / 10 := by
  refine ⟨?_, by decide, by norm_num⟩
  show min (2 * (1 / 10 : ℚ) * 100) (pyMax [-1]) = -1
  rw [show pyMax [(-1 : ℚ)] = -1 from rfl]
  rw [min_def]
  norm_num

/-- C5 (amended): with a nonempty pe column, target_pe equals
min(2 * estimatedGrowth * 100, max pe); it therefore never exceeds the
maximum historical pe, which bounds every pe value; and -1 is returned
whenever no pe column is present (the converse fails, see the
counterexample). -/
theorem target_pe_min_cap (g x : ℚ) (pes : List ℚ) (hne : pes ≠ []) (hx : x ∈ pes) :
    target_pe (some pes) g = min (2 * g * 100) (pyMax pes) ∧
    target_pe (some pes) g ≤ pyMax pes ∧
    x ≤ pyMax pes ∧
    target_pe none g = -1 :=
  ⟨rfl, min_le_right _ _, mem_le_pyMax x pes hx, rfl⟩

/-- C5 witness: the amended statement evaluated at growth 0.1 and pe values
[10, 20]. -/
theorem target_pe_min_cap_witness :
    ([10, 20] : List ℚ) ≠ [] ∧ (20 : ℚ) ∈ ([10, 20] : List ℚ) ∧
    (target_pe (some [10, 20]) (1 / 10) = min (2 * (1 / 10) * 100) (pyMax [10, 20]) ∧
     target_pe (some [10, 20]) (1 / 10) ≤ pyMax [10, 20] ∧
     (20 : ℚ) ≤ pyMax [10, 20] ∧
     target_pe none (1 / 10) = -1) :=
  ⟨by decide, by decide, target_pe_min_cap (1 / 10) 20 [10, 20] (by decide) (by decide)⟩

/-- C6 counterexample: on a series whose every observation is missing,
`_get_average_growth_rate` raises (np.average rejects weights that sum to
zero with a ZeroDivisionError) instead of returning no value; in particular
the claimed no-exception behavior fails. -/
theorem weighted_growth_empty_not_silent :
    get_average_growth_rate 2 ([none] : List (Option ℝ)) = .raise ∧
    GrowthResult.raise ≠ GrowthResult.val 0 := by
  refine ⟨rfl, by simp⟩

/-- C6 (amended): on every series with zero non-missing observations the
weighted growth computation raises a ZeroDivisionError rather than returning
a value; in particular it never returns zero. -/
theorem weighted_growth_empty_raises (shift : ℝ) (s : List (Option ℝ))
    (h : dropna s = []) : get_average_growth_rate shift s = .raise := by
  show np_weighted_average (logWeights shift (dropna s).length) (dropna s) = .raise
  rw [h]
  rfl

/-- C6 witness: the amended statement on a concrete all-missing series. -/
theorem weighted_growth_empty_raises_witness :
    dropna ([none, none] : List (Option ℝ)) = [] ∧
    get_average_growth_rate 2 ([none, none] : List (Option ℝ)) = .raise :=
  ⟨rfl, weighted_growth_empty_raises 2 ([none, none] : List (Option ℝ)) rfl⟩

/-- C4 counterexample: with the EPS series empty after dropping missing
values and the other three estimates defined (0.1 each), the four-metric
aggregate raises (the ZeroDivisionError of the EPS estimate propagates)
instead of computing the median over the three defined estimates. -/
theorem estimated_growth_raises_on_partial :
    estimated_growth 2 ([none] : List (Option ℝ))
        [some (1 / 10)] [some (1 / 10)] [some (1 / 10)] = .raise ∧
    get_average_growth_rate 2 [some ((1 : ℝ) / 10)] = .val (1 / 10) ∧
    GrowthResult.raise
      ≠ GrowthResult.val (pyRound2 (np_median4 (1 / 10) (1 / 10) (1 / 10) (1 / 10))) := by
  have h0 : get_average_growth_rate 2 ([none] : List (Option ℝ)) = .raise := rfl
  have h1 := gagr_single ((1 : ℝ) / 10)
  refine ⟨?_, h1, by simp⟩
  unfold estimated_growth
  rw [h0, h1]

/-- C4 (amended): when all four weighted growth estimates are defined, the
aggregate equals the median of the four values (the mean of the two middle
order statistics) rounded to 2 decimal places; when any of the four series
is empty after dropping missing values, the computation raises instead of
taking a median over the defined subset. -/
theorem estimated_growth_median_requires_all_four (shift : ℝ)
    (s1 s2 s3 s4 : List (Option ℝ)) (g1 g2 g3 g4 : ℝ)
    (h1 : get_average_growth_rate shift s1 = .val g1)
    (h2 : get_average_growth_rate shift s2 = .val g2)
    (h3 : get_average_growth_rate shift s3 = .val g3)
    (h4 : get_average_growth_rate shift s4 = .val g4) :
    estimated_growth shift s1 s2 s3 s4 = .val (pyRound2 (np_median4 g1 g2 g3 g4)) := by
  unfold estimated_growth
  rw [h1, h2, h3, h4]

/-- C4 witness: the amended statement with all four series equal to a
single defined observation 0.1. -/
theorem estimated_growth_median_requires_all_four_witness :
    get_average_growth_rate 2 [some ((1 : ℝ) / 10)] = .val (1 / 10) ∧
    estimated_growth 2 [some ((1 : ℝ) / 10)] [some (1 / 10)] [some (1 / 10)] [some (1 / 10)]
      = .val (pyRound2 (np_median4 (1 / 10) (1 / 10) (1 / 10) (1 / 10))) := by
  have h := gagr_single ((1 : ℝ) / 10)
  exact ⟨h, estimated_growth_median_requires_all_four 2 _ _ _ _ _ _ _ _ h h h h⟩

/-- C8 counterexample: for the constant series [7] (n = 1) and shift 1 — a
shift strictly greater than 0 — the single weight ln(0 + 1) is 0, the weight
sum is 0, and the result is NaN rather than the constant 7. -/
theorem weighted_growth_constant_shift_one :
    get_average_growth_rate 1 (List.replicate 1 (some (7 : ℝ))) = .nan ∧
    GrowthResult.nan ≠ GrowthResult.val 7 ∧
    (0 : ℝ) < 1 ∧ 0 < 1 := by
  have hw : (logWeights 1 1).sum = 0 := by
    have hr : List.range 1 = [0] := by decide
    rw [logWeights, hr, List.map_singleton]
    norm_num
  refine ⟨?_, by simp, by norm_num, by norm_num⟩
  show np_weighted_average (logWeights 1 1) [(7 : ℝ)] = .nan
  unfold np_weighted_average
  rw [if_neg (by simp), if_pos hw]

/-- C8 (amended): the weighted growth of a constant series [v, ..., v] with
n >= 1 observations equals v whenever the log weight sum ln(shift) + ... +
ln(n - 1 + shift) is nonzero, and the sum is indeed nonzero for every
shift >= 1 except the single case n = 1, shift = 1 (second conjunct); when
the sum vanishes — at n = 1, shift = 1, and also for certain shifts below 1
— the result is NaN rather than v, as the counterexample shows. -/
theorem weighted_growth_constant_series (v : ℝ) (n : ℕ) (shift : ℝ) (hn : 0 < n) :
    ((logWeights shift n).sum ≠ 0 →
      get_average_growth_rate shift (List.replicate n (some v)) = .val v) ∧
    (1 ≤ shift → 2 ≤ n ∨ 1 < shift → (logWeights shift n).sum ≠ 0) :=
  ⟨fun hw => growth_const shift v n (Nat.pos_iff_ne_zero.mp hn) hw,
   fun hs h => ne_of_gt (logWeights_sum_pos shift n hn hs h)⟩

/-- C8 witness: the amended statement at v = 5, n = 2, shift = 2, where the
weight sum ln 2 + ln 3 is nonzero by the second conjunct and the growth of
the constant series evaluates to 5. -/
theorem weighted_growth_constant_series_witness :
    0 < 2 ∧
    (((logWeights 2 2).sum ≠ 0 →
        get_average_growth_rate 2 (List.replicate 2 (some (5 : ℝ))) = .val 5) ∧
      (1 ≤ (2 : ℝ) → 2 ≤ 2 ∨ 1 < (2 : ℝ) → (logWeights 2 2).sum ≠ 0)) ∧
    get_average_growth_rate 2 (List.replicate 2 (some (5 : ℝ))) = .val 5 := by
  have h := weighted_growth_constant_series 5 2 2 (by norm_num)
  exact ⟨by norm_num, h, h.1 (h.2 (by norm_num) (Or.inl (le_refl 2)))⟩

/-- C7 counterexample: pandas pct_change forward fills the source before
differencing, so [100, missing, 121] derives to [NaN, 0, 0.21] — positions
whose own value (missing numerator) or predecessor (missing denominator) is
missing get a number, not an undefined entry; and a zero denominator in
[100, 0, 50] yields -1 then +inf, not an undefined entry.  The spec-modelled
fractional change gives undefined at all those positions. -/
theorem pct_change_pad_fill_diverges :
    pct_change [FV.num 100, FV.nan, FV.num 121]
      ≠ specFracChange [some 100, none, some 121] ∧
    pct_change [FV.num 100, FV.nan, FV.num 121] = [FV.nan, FV.num 0, FV.num (21 / 100)] ∧
    specFracChange [some 100, none, some 121] = [FV.nan, FV.nan, FV.nan] ∧
    pct_change [FV.num 100, FV.num 0, FV.num 50] = [FV.nan, FV.num (-1), FV.inf] ∧
    specFracChange [some 100, some 0, some 50] = [FV.nan, FV.num (-1), FV.nan] := by
  have hpad : pct_change [FV.num 100, FV.nan, FV.num 121]
      = [FV.nan, FV.num 0, FV.num (21 / 100)] := by
    norm_num [pct_change, ffill, ffillGo, pctPairs, fvDiv, fvSub]
  have hspec : specFracChange [some 100, none, some 121] = [FV.nan, FV.nan, FV.nan] := by
    norm_num [specFracChange, specFracChangeGo, specFracEntry]
  have hzero : pct_change [FV.num 100, FV.num 0, FV.num 50]
      = [FV.nan, FV.num (-1), FV.inf] := by
    norm_num [pct_change, ffill, ffillGo, pctPairs, fvDiv, fvSub]
  have hzspec : specFracChange [some 100, some 0, some 50]
      = [FV.nan, FV.num (-1), FV.nan] := by
    norm_num [specFracChange, specFracChangeGo, specFracEntry]
  exact ⟨by rw [hpad, hspec]; decide, hpad, hspec, hzero, hzspec⟩

/-- C7 (amended): for a source column that is fully present with nonzero
values, the derived growth column is exactly the claimed fractional change:
undefined for the first period and (current - previous)/previous afterwards;
with missing values or zero denominators the code diverges from the claim as
the counterexample shows. -/
theorem growth_column_fractional_change_on_defined (cur : String) (t : Table)
    (vs : List ℚ)
    (hcol : col t ("earnings-per-share-" ++ cur) = vs.map FV.num)
    (hnz : ∀ v ∈ vs, v ≠ 0) :
    col (add_earnings_ps_growth cur t) "earnings-ps-growth"
      = specFracChange (vs.map some) := by
  simp only [add_earnings_ps_growth]
  rw [col_setCol_self, hcol, pct_change_map_num vs hnz]

/-- C7 witness: the amended statement on the table with earnings
[100, 110, 121], whose derived growth column is the claimed
[undefined, 0.10, 0.10]. -/
theorem growth_column_fractional_change_witness :
    col tableC7 ("earnings-per-share-" ++ "usd") = ([100, 110, 121] : List ℚ).map FV.num ∧
    (∀ v ∈ ([100, 110, 121] : List ℚ), v ≠ 0) ∧
    col (add_earnings_ps_growth "usd" tableC7) "earnings-ps-growth"
      = specFracChange (([100, 110, 121] : List ℚ).map some) ∧
    specFracChange (([100, 110, 121] : List ℚ).map some)
      = [FV.nan, FV.num (1 / 10), FV.num (1 / 10)] := by
  refine ⟨by decide, by decide,
    growth_column_fractional_change_on_defined "usd" tableC7 [100, 110, 121]
      (by decide) (by decide), ?_⟩
  norm_num [specFracChange, specFracChangeGo, specFracEntry]

/-- C9: for every ratios row i, `add_pe` sets the pe entry to the closing
price at the price-history index chosen by the nearest-date lookup divided
by that row's earnings per share, and the chosen index is within bounds and
minimizes the absolute day distance to the row date (compared against any
index j). -/
theorem add_pe_nearest_date (priceDates : List ℤ) (closes : List FV) (cur : String)
    (t : Table) (i j : ℕ)
    (hp : priceDates ≠ [])
    (hi : i < t.dates.length)
    (hlen : (col t ("earnings-per-share-" ++ cur)).length = t.dates.length)
    (hj : j < priceDates.length) :
    nearestIdx (t.dates.getD i 0) priceDates < priceDates.length ∧
    (priceDates.getD (nearestIdx (t.dates.getD i 0) priceDates) 0 - t.dates.getD i 0).natAbs
      ≤ (priceDates.getD j 0 - t.dates.getD i 0).natAbs ∧
    (col (add_pe priceDates closes cur t) "pe").getD i FV.nan
      = fvDiv (closes.getD (nearestIdx (t.dates.getD i 0) priceDates) FV.nan)
              ((col t ("earnings-per-share-" ++ cur)).getD i FV.nan) := by
  refine ⟨nearestIdx_lt _ priceDates hp, nearestIdx_min _ priceDates j hj, ?_⟩
  simp only [add_pe]
  rw [col_setCol_self]
  have hi2 : i < (col t ("earnings-per-share-" ++ cur)).length := by
    rw [hlen]
    exact hi
  rw [getD_map_zip _ t.dates (col t ("earnings-per-share-" ++ cur)) i hi hi2]

/-- C9 witness: the spec example with the ratio period at day 0 (2020-01-01)
and price dates at day offsets -12 (2019-12-20) and +9 (2020-01-10): the
nearer date +9 is chosen (index 1) and pe = 90 / 2 = 45. -/
theorem add_pe_nearest_date_witness :
    ([-12, 9] : List ℤ) ≠ [] ∧ 0 < tableC9.dates.length ∧
    (col tableC9 ("earnings-per-share-" ++ "usd")).length = tableC9.dates.length ∧
    0 < ([-12, 9] : List ℤ).length ∧
    (nearestIdx (tableC9.dates.getD 0 0) [-12, 9] < ([-12, 9] : List ℤ).length ∧
     (([-12, 9] : List ℤ).getD (nearestIdx (tableC9.dates.getD 0 0) [-12, 9]) 0
         - tableC9.dates.getD 0 0).natAbs
       ≤ (([-12, 9] : List ℤ).getD 0 0 - tableC9.dates.getD 0 0).natAbs ∧
     (col (add_pe [-12, 9] [FV.num 50, FV.num 90] "usd" tableC9) "pe").getD 0 FV.nan
       = fvDiv (([FV.num 50, FV.num 90] : List FV).getD
            (nearestIdx (tableC9.dates.getD 0 0) [-12, 9]) FV.nan)
           ((col tableC9 ("earnings-per-share-" ++ "usd")).getD 0 FV.nan)) ∧
    nearestIdx 0 [-12, 9] = 1 ∧
    fvDiv (FV.num 90) (FV.num 2) = FV.num 45 := by
  refine ⟨by decide, by decide, by decide, by decide,
    add_pe_nearest_date [-12, 9] [FV.num 50, FV.num 90] "usd" tableC9 0 0
      (by decide) (by decide) (by decide) (by decide), by decide, ?_⟩
  norm_num [fvDiv]

/-- C10: no modelled observable depends on the stored force-refresh flag:
for any Security state and any inputs, every bundled observable is identical
when the flag is flipped, because `force_update` is written in the
constructor and never read again. -/
theorem force_update_not_consulted (s : Stock) (b1 b2 : Bool) (file_exists : Bool)
    (now mtime : ℤ) (cache_valid fetch_ok : Bool) (parse : ParseOutcome)
    (log : List String) (series eps rev bv ocf : List (Option ℝ))
    (pe_col : Option (List ℚ)) (g : ℚ) (priceDates : List ℤ) (closes : List FV)
    (cur : String) (t : Table) :
    Stock.observables { s with force_update := b1 } file_exists now mtime cache_valid
        fetch_ok parse log series eps rev bv ocf pe_col g priceDates closes cur t
      = Stock.observables { s with force_update := b2 } file_exists now mtime cache_valid
        fetch_ok parse log series eps rev bv ocf pe_col g priceDates closes cur t := rfl
